import Mathlib

/-!
Verification development for the Reddit comments scraper (src/src/main.js).

The script fetches a thread JSON document, flattens the nested comment tree
into flat records pushed to a dataset sink, and resolves "more" placeholder
ids through a continuation endpoint.  The definitions below are a shallow
embedding of the script: the mutable variables of main() (saved, batch,
moreCommentIds, totalExtracted, and the dataset sink) become an explicit
state record, network responses become explicit environment parameters, and
JavaScript numbers become Int/Nat.
-/

namespace Reddit

/-- Output record pushed to the dataset (main.js lines 148-156 and 233-241):
fields id, author, body, score, created_utc, parent_id, permalink.
parent_id is null for top-level comments, hence Option. -/
structure Flat where
  id : String
  author : String
  body : String
  score : Int
  created_utc : Int
  parent_id : Option String
  permalink : String
  deriving Repr, DecidableEq

/-- A node of the comment listing (main.js lines 141-174): kind "t1" is a
real comment whose nested replies live at data.replies.data.children
(absent replies modelled as none), kind "more" is a placeholder carrying
child ids, and any other kind is skipped by the walk. -/
inductive RNode where
  | t1 (id author body : String) (score created_utc : Int) (permalink : String)
       (replies : Option (List RNode))
  | more (children : List String)
  | other (kind : String)
  deriving Repr

/-- An entry of a continuation ("morechildren") response (main.js lines
228-252): kind "t1" carries its own parent_id field (the response is flat,
not nested); entries of any other kind are dropped. -/
inductive Thing where
  | t1c (id author body : String) (score created_utc : Int)
        (parent_id : Option String) (permalink : String)
  | otherKind (kind : String)
  deriving Repr

/-- The mutable orchestration state of main(): the saved counter (records
already flushed to the dataset), the pending batch, the dataset sink
itself (append-only), the collected "more" ids, and the totalExtracted
counter. -/
structure St where
  saved : Nat
  batch : List Flat
  sink : List Flat
  moreIds : List String
  totalExtracted : Nat
  deriving Repr, DecidableEq

/-- State at the start of main(): all counters zero, all lists empty. -/
def initSt : St := ⟨0, [], [], [], 0⟩

/-- Lines 130-137: push the pending batch to the dataset when nonempty,
add its length to the saved counter, and clear it. -/
def pushBatch (s : St) : St :=
  if s.batch.isEmpty then s
  else { s with sink := s.sink ++ s.batch,
                saved := s.saved + s.batch.length,
                batch := [] }

/-- All records appended so far, in order: the flushed sink followed by
the pending batch. -/
def appended (s : St) : List Flat := s.sink ++ s.batch

/-- The shared append-then-flush step (lines 158-164 and 243-250): push one
record onto the batch, bump totalExtracted, and flush the batch to the
dataset once it holds 20 records. -/
def pushComment (fc : Flat) (s : St) : St :=
  if (s.batch ++ [fc]).length ≥ 20 then
    pushBatch { s with batch := s.batch ++ [fc],
                       totalExtracted := s.totalExtracted + 1 }
  else { s with batch := s.batch ++ [fc],
                totalExtracted := s.totalExtracted + 1 }

/-- Lines 140-176 (extractComments): walk the comment array depth-first.
Before each node the walk stops if the saved counter has reached the cap
(the early return at lines 142-144).  A "t1" node is projected to a Flat
record with parent_id set to the caller-supplied parentId, then its
replies (when present) are walked with parentId set to this node's id; a
"more" node contributes its child ids to moreIds (the redundant
saved < cap test of line 170 is kept); other kinds are skipped.  The two
t1 equations split on the presence of nested replies. -/
def extractComments (rw : Nat) : List RNode → Option String → St → St
  | [], _, s => s
  | .t1 id author body score created permalink none :: rest, parentId, s =>
      if s.saved ≥ rw then s
      else
        extractComments rw rest parentId
          (pushComment ⟨id, author, body, score, created, parentId, permalink⟩ s)
  | .t1 id author body score created permalink (some rs) :: rest, parentId, s =>
      if s.saved ≥ rw then s
      else
        extractComments rw rest parentId
          (extractComments rw rs (some id)
            (pushComment ⟨id, author, body, score, created, parentId, permalink⟩ s))
  | .more children :: rest, parentId, s =>
      if s.saved ≥ rw then s
      else
        extractComments rw rest parentId
          (if s.saved < rw then { s with moreIds := s.moreIds ++ children } else s)
  | .other _ :: rest, parentId, s =>
      if s.saved ≥ rw then s
      else extractComments rw rest parentId s
termination_by nodes _ _ => sizeOf nodes
decreasing_by all_goals simp_wf <;> omega

/-- Lines 228-252 (the things loop of one continuation batch): before each
entry the loop breaks once the saved counter reaches the cap; a "t1"
entry is projected to a Flat record taking parent_id verbatim from the
entry itself, then appended and flushed at 20; other kinds are skipped. -/
def processThings (rw : Nat) : List Thing → St → St
  | [], s => s
  | .t1c id author body score created parent permalink :: rest, s =>
      if s.saved ≥ rw then s
      else processThings rw rest
        (pushComment ⟨id, author, body, score, created, parent, permalink⟩ s)
  | .otherKind _ :: rest, s =>
      if s.saved ≥ rw then s
      else processThings rw rest s

/-- Lines 194-262 (the continuation batch loop): step the index i by 100
while i is in range and the cap is not reached; slice up to 100 ids, then
trim to the remaining need (line 196) and break when nothing is left to
fetch; fetch and parse the batch (env gives the parsed things of the k-th
batch request; a fetch or parse failure, after the inner 3-attempt retry
of lines 207-221, surfaces as error and is caught: the state is left
unchanged and the loop proceeds to the next batch).  The rate-limit sleep
of lines 256-258 has no effect on the state. -/
def contLoop (rw : Nat) (env : Nat → Except Unit (List Thing))
    (moreIds : List String) (i : Nat) (s : St) : St :=
  if _h : i < moreIds.length ∧ s.saved < rw then
    -- idBatch is moreIds.slice(i, i + 100); idsToFetch trims it to the
    -- remaining need (line 196).
    if ((((moreIds.drop i).take 100)).take (min 100 (rw - s.saved))).length = 0 then s
    else
      contLoop rw env moreIds (i + 100)
        (match env (i / 100) with
         | .error _ => s
         | .ok things => processThings rw things s)
  else s
termination_by moreIds.length - i
decreasing_by simp_wf; omega

/-- Lines 179-268 (the data path of main() after the primary document is
parsed): walk the primary comment tree from a null parent, flush the
pending batch, then, when placeholder ids were collected and the cap is
not yet reached, run the continuation loop from index 0 and flush once
more at the end. -/
def runMain (rw : Nat) (comments : List RNode)
    (env : Nat → Except Unit (List Thing)) : St :=
  let s1 := extractComments rw comments none initSt
  let s2 := pushBatch s1
  if 0 < s2.moreIds.length ∧ s2.saved < rw then
    pushBatch (contLoop rw env s2.moreIds 0 s2)
  else s2

/-! Basic facts about the flush and append steps. -/

lemma pushBatch_appended (s : St) : appended (pushBatch s) = appended s := by
  unfold pushBatch appended
  split
  · rfl
  · simp

lemma pushBatch_batch (s : St) : (pushBatch s).batch = [] := by
  unfold pushBatch
  split
  · next h => exact List.isEmpty_iff.mp h
  · rfl

lemma pushBatch_moreIds (s : St) : (pushBatch s).moreIds = s.moreIds := by
  unfold pushBatch
  split <;> rfl

lemma pushBatch_saved_le (s : St) : s.saved ≤ (pushBatch s).saved := by
  unfold pushBatch
  split
  · exact le_refl _
  · exact Nat.le_add_right _ _

lemma appended_of_batch_nil {s : St} (h : s.batch = []) : appended s = s.sink := by
  simp [appended, h]

lemma pushBatch_sink (s : St) : (pushBatch s).sink = appended s := by
  have h1 := pushBatch_appended s
  have h2 := appended_of_batch_nil (pushBatch_batch s)
  rw [← h1, h2]

lemma pushComment_appended (fc : Flat) (s : St) :
    appended (pushComment fc s) = appended s ++ [fc] := by
  unfold pushComment
  split
  · rw [pushBatch_appended]
    simp [appended]
  · simp [appended]

lemma pushComment_moreIds (fc : Flat) (s : St) :
    (pushComment fc s).moreIds = s.moreIds := by
  unfold pushComment
  split
  · rw [pushBatch_moreIds]
  · rfl

lemma pushComment_saved (fc : Flat) (s : St) :
    (pushComment fc s).saved =
      if s.batch.length + 1 ≥ 20 then s.saved + (s.batch.length + 1) else s.saved := by
  unfold pushComment pushBatch
  split
  · next h =>
    have h2 : s.batch.length + 1 ≥ 20 := by simpa using h
    simp [h2]
  · next h =>
    have h2 : ¬ s.batch.length + 1 ≥ 20 := by simpa using h
    simp [h2]

lemma pushComment_batch_length (fc : Flat) (s : St) :
    (pushComment fc s).batch.length =
      if s.batch.length + 1 ≥ 20 then 0 else s.batch.length + 1 := by
  unfold pushComment pushBatch
  split
  · next h =>
    have h2 : s.batch.length + 1 ≥ 20 := by simpa using h
    simp [h2]
  · next h =>
    have h2 : ¬ s.batch.length + 1 ≥ 20 := by simpa using h
    simp [h2]

/-! Prefix-extension lemmas: every phase of the run only appends to the
record stream, never removing or reordering what is already there. -/

lemma extract_appends (rw : Nat) (nodes : List RNode)
    (pid : Option String) (s : St) :
    appended s <+: appended (extractComments rw nodes pid s) := by
  induction nodes, pid, s using extractComments.induct rw with
  | case1 pid s =>
    rw [extractComments]
  | case2 _ _ _ _ _ _ _ _ _ hge =>
    rw [extractComments, if_pos hge]
  | case3 id author body score created permalink rest pid s h ih =>
    rw [extractComments, if_neg h]
    refine List.IsPrefix.trans ?_ ih
    rw [pushComment_appended]
    exact List.prefix_append _ _
  | case4 _ _ _ _ _ _ _ _ _ _ hge =>
    rw [extractComments, if_pos hge]
  | case5 id author body score created permalink rs rest pid s h ih1 ih2 =>
    rw [extractComments, if_neg h]
    refine List.IsPrefix.trans ?_ (List.IsPrefix.trans ih1 ih2)
    rw [pushComment_appended]
    exact List.prefix_append _ _
  | case6 _ _ _ _ hge =>
    rw [extractComments, if_pos hge]
  | case7 children rest pid s h ih =>
    rw [extractComments, if_neg h]
    refine List.IsPrefix.trans ?_ ih
    split <;> exact List.prefix_rfl
  | case8 _ _ _ _ hge =>
    rw [extractComments, if_pos hge]
  | case9 kind rest pid s h ih =>
    rw [extractComments, if_neg h]
    exact ih

lemma processThings_appends (rw : Nat) (things : List Thing) (s : St) :
    appended s <+: appended (processThings rw things s) := by
  induction things, s using processThings.induct rw with
  | case1 s =>
    rw [processThings]
  | case2 _ _ _ _ _ _ _ _ _ hge =>
    rw [processThings, if_pos hge]
  | case3 id author body score created parent permalink rest s h ih =>
    rw [processThings, if_neg h]
    refine List.IsPrefix.trans ?_ ih
    rw [pushComment_appended]
    exact List.prefix_append _ _
  | case4 _ _ _ hge =>
    rw [processThings, if_pos hge]
  | case5 kind rest s h ih =>
    rw [processThings, if_neg h]
    exact ih

lemma contLoop_appends (rw : Nat) (env : Nat → Except Unit (List Thing))
    (moreIds : List String) (i : Nat) (s : St) :
    appended s <+: appended (contLoop rw env moreIds i s) := by
  induction i, s using contLoop.induct rw env moreIds with
  | case1 i s h hempty =>
    rw [contLoop, dif_pos h, if_pos hempty]
  | case2 i s h hne ih =>
    rw [contLoop, dif_pos h, if_neg hne]
    refine List.IsPrefix.trans ?_ ih
    split
    · exact List.prefix_rfl
    · exact processThings_appends _ _ _
  | case3 i s h =>
    rw [contLoop, dif_neg h]

/-! Stop lemmas: once the saved counter has reached the cap, every phase
leaves the state unchanged. -/

lemma extract_stop {rw : Nat} {s : St} (nodes : List RNode) (pid : Option String)
    (h : rw ≤ s.saved) : extractComments rw nodes pid s = s := by
  match nodes with
  | [] => rw [extractComments]
  | .t1 id a b sc cr pl none :: rest => rw [extractComments, if_pos h]
  | .t1 id a b sc cr pl (some rs) :: rest => rw [extractComments, if_pos h]
  | .more ch :: rest => rw [extractComments, if_pos h]
  | .other k :: rest => rw [extractComments, if_pos h]

lemma processThings_stop {rw : Nat} {s : St} (things : List Thing)
    (h : rw ≤ s.saved) : processThings rw things s = s := by
  match things with
  | [] => rw [processThings]
  | .t1c id a b sc cr p pl :: rest => rw [processThings, if_pos h]
  | .otherKind k :: rest => rw [processThings, if_pos h]

lemma contLoop_stop {rw : Nat} {s : St} (env : Nat → Except Unit (List Thing))
    (moreIds : List String) (i : Nat) (h : rw ≤ s.saved) :
    contLoop rw env moreIds i s = s := by
  rw [contLoop, dif_neg]
  rintro ⟨-, h2⟩
  omega

/-! The flush invariant: the sink length always equals the saved counter,
the pending batch never exceeds 19 records between steps, and the total
number of appended records stays within cap + 19. -/

/-- Invariant tying the saved counter to the sink and bounding the
overshoot of the appended stream past the cap. -/
def Inv (rw : Nat) (s : St) : Prop :=
  s.sink.length = s.saved ∧ s.batch.length ≤ 19 ∧
    s.saved + s.batch.length ≤ rw + 19

lemma inv_initSt (rw : Nat) : Inv rw initSt := by
  refine ⟨rfl, ?_, ?_⟩ <;> simp [initSt]

lemma inv_pushBatch {rw : Nat} {s : St} (h : Inv rw s) : Inv rw (pushBatch s) := by
  obtain ⟨h1, h2, h3⟩ := h
  unfold pushBatch
  split
  · exact ⟨h1, h2, h3⟩
  · refine ⟨?_, ?_, ?_⟩
    all_goals simp [h1]
    omega

lemma pushComment_sink_length (fc : Flat) (s : St) :
    (pushComment fc s).sink.length =
      if s.batch.length + 1 ≥ 20 then s.sink.length + (s.batch.length + 1)
      else s.sink.length := by
  unfold pushComment pushBatch
  split
  · next h =>
    have h2 : s.batch.length + 1 ≥ 20 := by simpa using h
    simp [h2]
  · next h =>
    have h2 : ¬ s.batch.length + 1 ≥ 20 := by simpa using h
    simp [h2]

lemma inv_pushComment {rw : Nat} {s : St} (fc : Flat) (h : Inv rw s)
    (hlt : s.saved < rw) : Inv rw (pushComment fc s) := by
  obtain ⟨h1, h2, h3⟩ := h
  refine ⟨?_, ?_, ?_⟩
  · rw [pushComment_sink_length, pushComment_saved]
    split_ifs <;> omega
  · rw [pushComment_batch_length]
    split_ifs <;> omega
  · rw [pushComment_saved, pushComment_batch_length]
    split_ifs <;> omega

lemma inv_extract {rw : Nat} (nodes : List RNode) (pid : Option String)
    (s : St) : Inv rw s → Inv rw (extractComments rw nodes pid s) := by
  induction nodes, pid, s using extractComments.induct rw with
  | case1 pid s => intro h; rwa [extractComments]
  | case2 _ _ _ _ _ _ _ _ _ hge => intro h; rwa [extractComments, if_pos hge]
  | case3 id a b sc cr pl rest pid s hge ih =>
    intro h
    rw [extractComments, if_neg hge]
    exact ih (inv_pushComment _ h (by omega))
  | case4 _ _ _ _ _ _ _ _ _ _ hge => intro h; rwa [extractComments, if_pos hge]
  | case5 id a b sc cr pl rs rest pid s hge ih1 ih2 =>
    intro h
    rw [extractComments, if_neg hge]
    exact ih2 (ih1 (inv_pushComment _ h (by omega)))
  | case6 _ _ _ _ hge => intro h; rwa [extractComments, if_pos hge]
  | case7 children rest pid s hge ih =>
    intro h
    rw [extractComments, if_neg hge]
    refine ih ?_
    split <;> exact h
  | case8 _ _ _ _ hge => intro h; rwa [extractComments, if_pos hge]
  | case9 kind rest pid s hge ih =>
    intro h
    rw [extractComments, if_neg hge]
    exact ih h

lemma inv_processThings {rw : Nat} (things : List Thing) (s : St) :
    Inv rw s → Inv rw (processThings rw things s) := by
  induction things, s using processThings.induct rw with
  | case1 s => intro h; rwa [processThings]
  | case2 _ _ _ _ _ _ _ _ _ hge => intro h; rwa [processThings, if_pos hge]
  | case3 id a b sc cr p pl rest s hge ih =>
    intro h
    rw [processThings, if_neg hge]
    exact ih (inv_pushComment _ h (by omega))
  | case4 _ _ _ hge => intro h; rwa [processThings, if_pos hge]
  | case5 kind rest s hge ih =>
    intro h
    rw [processThings, if_neg hge]
    exact ih h

lemma inv_contLoop {rw : Nat} (env : Nat → Except Unit (List Thing))
    (moreIds : List String) (i : Nat) (s : St) :
    Inv rw s → Inv rw (contLoop rw env moreIds i s) := by
  induction i, s using contLoop.induct rw env moreIds with
  | case1 i s hc hempty =>
    intro h
    rwa [contLoop, dif_pos hc, if_pos hempty]
  | case2 i s hc hne ih =>
    intro h
    rw [contLoop, dif_pos hc, if_neg hne]
    refine ih ?_
    split
    · exact h
    · exact inv_processThings _ _ h
  | case3 i s hc =>
    intro h
    rwa [contLoop, dif_neg hc]

lemma inv_runMain (rw : Nat) (comments : List RNode)
    (env : Nat → Except Unit (List Thing)) : Inv rw (runMain rw comments env) := by
  unfold runMain
  dsimp only
  have h1 := inv_extract comments none initSt (inv_initSt rw)
  have h2 := inv_pushBatch h1
  split
  · exact inv_pushBatch (inv_contLoop _ _ _ _ h2)
  · exact h2

/-! Step equations: one unfolding of each phase under explicit conditions,
convenient for comparing runs under different caps. -/

lemma extract_nil (rw : Nat) (pid : Option String) (s : St) :
    extractComments rw [] pid s = s := by
  rw [extractComments]

lemma extract_t1_none_step {rw : Nat} {s : St} (h : s.saved < rw)
    (id a b : String) (sc cr : Int) (pl : String) (rest : List RNode)
    (pid : Option String) :
    extractComments rw (.t1 id a b sc cr pl none :: rest) pid s =
      extractComments rw rest pid (pushComment ⟨id, a, b, sc, cr, pid, pl⟩ s) := by
  rw [extractComments, if_neg (by omega)]

lemma extract_t1_some_step {rw : Nat} {s : St} (h : s.saved < rw)
    (id a b : String) (sc cr : Int) (pl : String) (rs rest : List RNode)
    (pid : Option String) :
    extractComments rw (.t1 id a b sc cr pl (some rs) :: rest) pid s =
      extractComments rw rest pid
        (extractComments rw rs (some id) (pushComment ⟨id, a, b, sc, cr, pid, pl⟩ s)) := by
  rw [extractComments, if_neg (by omega)]

lemma extract_more_step {rw : Nat} {s : St} (h : s.saved < rw)
    (children : List String) (rest : List RNode) (pid : Option String) :
    extractComments rw (.more children :: rest) pid s =
      extractComments rw rest pid { s with moreIds := s.moreIds ++ children } := by
  rw [extractComments, if_neg (by omega), if_pos h]

lemma extract_other_step {rw : Nat} {s : St} (h : s.saved < rw)
    (kind : String) (rest : List RNode) (pid : Option String) :
    extractComments rw (.other kind :: rest) pid s =
      extractComments rw rest pid s := by
  rw [extractComments, if_neg (by omega)]

lemma processThings_nil (rw : Nat) (s : St) : processThings rw [] s = s := by
  rw [processThings]

lemma processThings_t1_step {rw : Nat} {s : St} (h : s.saved < rw)
    (id a b : String) (sc cr : Int) (p : Option String) (pl : String)
    (rest : List Thing) :
    processThings rw (.t1c id a b sc cr p pl :: rest) s =
      processThings rw rest (pushComment ⟨id, a, b, sc, cr, p, pl⟩ s) := by
  rw [processThings, if_neg (by omega)]

lemma processThings_other_step {rw : Nat} {s : St} (h : s.saved < rw)
    (kind : String) (rest : List Thing) :
    processThings rw (.otherKind kind :: rest) s = processThings rw rest s := by
  rw [processThings, if_neg (by omega)]

lemma contLoop_out {rw : Nat} {s : St} (env : Nat → Except Unit (List Thing))
    (moreIds : List String) (i : Nat)
    (h : ¬ (i < moreIds.length ∧ s.saved < rw)) :
    contLoop rw env moreIds i s = s := by
  rw [contLoop, dif_neg h]

lemma idsToFetch_ne_zero {rw : Nat} {s : St} {moreIds : List String} {i : Nat}
    (hi : i < moreIds.length) (hs : s.saved < rw) :
    ¬ ((((moreIds.drop i).take 100)).take (min 100 (rw - s.saved))).length = 0 := by
  simp only [List.length_take, List.length_drop]
  omega

lemma contLoop_step {rw : Nat} {s : St} (env : Nat → Except Unit (List Thing))
    (moreIds : List String) (i : Nat)
    (hi : i < moreIds.length) (hs : s.saved < rw) :
    contLoop rw env moreIds i s =
      contLoop rw env moreIds (i + 100)
        (match env (i / 100) with
         | .error _ => s
         | .ok things => processThings rw things s) := by
  rw [contLoop, dif_pos ⟨hi, hs⟩, if_neg (idsToFetch_ne_zero hi hs)]

/-! Comparing two runs that differ only in their cap: the run under the
smaller cap either coincides with the other run or has stopped with its
appended stream a prefix of the other run's stream. -/

lemma extract_mono {rw rw' : Nat} (hrw : rw ≤ rw') (nodes : List RNode)
    (pid : Option String) (s : St) :
    extractComments rw nodes pid s = extractComments rw' nodes pid s ∨
      (rw ≤ (extractComments rw nodes pid s).saved ∧
       appended (extractComments rw nodes pid s) <+:
         appended (extractComments rw' nodes pid s)) := by
  induction nodes, pid, s using extractComments.induct rw with
  | case1 pid s =>
    left
    rw [extract_nil, extract_nil]
  | case2 id a b sc cr pl rest pid s hge =>
    rw [extract_stop _ _ hge]
    rcases Nat.lt_or_ge s.saved rw' with h' | h'
    · right
      exact ⟨hge, extract_appends rw' _ _ _⟩
    · left
      rw [extract_stop _ _ h']
  | case3 id a b sc cr pl rest pid s hge ih =>
    have hlt : s.saved < rw := by omega
    rw [extract_t1_none_step hlt, extract_t1_none_step (by omega : s.saved < rw')]
    exact ih
  | case4 id a b sc cr pl rs rest pid s hge =>
    rw [extract_stop _ _ hge]
    rcases Nat.lt_or_ge s.saved rw' with h' | h'
    · right
      exact ⟨hge, extract_appends rw' _ _ _⟩
    · left
      rw [extract_stop _ _ h']
  | case5 id a b sc cr pl rs rest pid s hge ih1 ih2 =>
    have hlt : s.saved < rw := by omega
    rw [extract_t1_some_step hlt, extract_t1_some_step (by omega : s.saved < rw')]
    rcases ih1 with heq | ⟨hs3, hpre3⟩
    · rw [← heq]
      exact ih2
    · rw [extract_stop _ _ hs3]
      right
      refine ⟨hs3, ?_⟩
      exact List.IsPrefix.trans hpre3 (extract_appends rw' _ _ _)
  | case6 children rest pid s hge =>
    rw [extract_stop _ _ hge]
    rcases Nat.lt_or_ge s.saved rw' with h' | h'
    · right
      exact ⟨hge, extract_appends rw' _ _ _⟩
    · left
      rw [extract_stop _ _ h']
  | case7 children rest pid s hge ih =>
    have hlt : s.saved < rw := by omega
    rw [extract_more_step hlt, extract_more_step (by omega : s.saved < rw')]
    rw [dif_pos hlt] at ih
    exact ih
  | case8 kind rest pid s hge =>
    rw [extract_stop _ _ hge]
    rcases Nat.lt_or_ge s.saved rw' with h' | h'
    · right
      exact ⟨hge, extract_appends rw' _ _ _⟩
    · left
      rw [extract_stop _ _ h']
  | case9 kind rest pid s hge ih =>
    have hlt : s.saved < rw := by omega
    rw [extract_other_step hlt, extract_other_step (by omega : s.saved < rw')]
    exact ih

lemma processThings_mono {rw rw' : Nat} (hrw : rw ≤ rw') (things : List Thing)
    (s : St) :
    processThings rw things s = processThings rw' things s ∨
      (rw ≤ (processThings rw things s).saved ∧
       appended (processThings rw things s) <+:
         appended (processThings rw' things s)) := by
  induction things, s using processThings.induct rw with
  | case1 s =>
    left
    rw [processThings_nil, processThings_nil]
  | case2 id a b sc cr p pl rest s hge =>
    rw [processThings_stop _ hge]
    rcases Nat.lt_or_ge s.saved rw' with h' | h'
    · right
      exact ⟨hge, processThings_appends rw' _ _⟩
    · left
      rw [processThings_stop _ h']
  | case3 id a b sc cr p pl rest s hge ih =>
    have hlt : s.saved < rw := by omega
    rw [processThings_t1_step hlt, processThings_t1_step (by omega : s.saved < rw')]
    exact ih
  | case4 kind rest s hge =>
    rw [processThings_stop _ hge]
    rcases Nat.lt_or_ge s.saved rw' with h' | h'
    · right
      exact ⟨hge, processThings_appends rw' _ _⟩
    · left
      rw [processThings_stop _ h']
  | case5 kind rest s hge ih =>
    have hlt : s.saved < rw := by omega
    rw [processThings_other_step hlt, processThings_other_step (by omega : s.saved < rw')]
    exact ih

lemma contLoop_mono {rw rw' : Nat} (hrw : rw ≤ rw')
    (env : Nat → Except Unit (List Thing)) (moreIds : List String) (i : Nat)
    (s : St) :
    contLoop rw env moreIds i s = contLoop rw' env moreIds i s ∨
      (rw ≤ (contLoop rw env moreIds i s).saved ∧
       appended (contLoop rw env moreIds i s) <+:
         appended (contLoop rw' env moreIds i s)) := by
  induction i, s using contLoop.induct rw env moreIds with
  | case1 i s hc hempty =>
    exact absurd hempty (idsToFetch_ne_zero hc.1 hc.2)
  | case2 i s hc hne ih =>
    obtain ⟨hi, hs⟩ := hc
    rw [contLoop_step env moreIds i hi hs,
        contLoop_step env moreIds i hi (by omega : s.saved < rw')]
    rcases henv : env (i / 100) with e | things <;> rw [henv] at ih <;>
      dsimp only at ih ⊢
    · exact ih
    · rcases processThings_mono hrw things s with heq | ⟨hps, hppre⟩
      · rw [← heq]
        exact ih
      · rw [contLoop_stop env moreIds (i + 100) hps]
        right
        refine ⟨hps, ?_⟩
        exact List.IsPrefix.trans hppre (contLoop_appends rw' env moreIds (i + 100) _)
  | case3 i s hc =>
    rw [contLoop_out env moreIds i hc]
    by_cases hc' : i < moreIds.length ∧ s.saved < rw'
    · right
      have hs : rw ≤ s.saved := by
        rcases Nat.lt_or_ge s.saved rw with h1 | h1
        · exact absurd ⟨hc'.1, h1⟩ hc
        · exact h1
      exact ⟨hs, contLoop_appends rw' env moreIds i s⟩
    · left
      rw [contLoop_out env moreIds i hc']

/-- C10 helper: the sink of a full run never exceeds cap + 19 records. -/
lemma runMain_sink_length_le (rw : Nat) (comments : List RNode)
    (env : Nat → Except Unit (List Thing)) :
    (runMain rw comments env).sink.length ≤ rw + 19 := by
  obtain ⟨h1, h2, h3⟩ := inv_runMain rw comments env
  omega

lemma runMain_sink_mono {rw rw' : Nat} (hrw : rw ≤ rw') (comments : List RNode)
    (env : Nat → Except Unit (List Thing)) :
    (runMain rw comments env).sink <+: (runMain rw' comments env).sink := by
  unfold runMain
  dsimp only
  rcases extract_mono hrw comments none initSt with heq | ⟨hs, hpre⟩
  · rw [heq]
    have htb : (pushBatch (extractComments rw' comments none initSt)).batch = [] :=
      pushBatch_batch _
    generalize hgen : pushBatch (extractComments rw' comments none initSt) = t at htb ⊢
    by_cases hcm : 0 < t.moreIds.length
    · by_cases hsv : t.saved < rw
      · rw [if_pos ⟨hcm, hsv⟩, if_pos ⟨hcm, by omega⟩, pushBatch_sink, pushBatch_sink]
        rcases contLoop_mono hrw env t.moreIds 0 t with heq2 | ⟨_, hp⟩
        · rw [heq2]
        · exact hp
      · rw [if_neg (by tauto)]
        by_cases hsv' : t.saved < rw'
        · rw [if_pos ⟨hcm, hsv'⟩, pushBatch_sink, ← appended_of_batch_nil htb]
          exact contLoop_appends rw' env t.moreIds 0 t
        · rw [if_neg (by tauto)]
    · rw [if_neg (by tauto), if_neg (by tauto)]
  · have h2 : rw ≤ (pushBatch (extractComments rw comments none initSt)).saved :=
      le_trans hs (pushBatch_saved_le _)
    rw [if_neg (fun hc => absurd hc.2 (by omega)), pushBatch_sink]
    by_cases hc' : 0 < (pushBatch (extractComments rw' comments none initSt)).moreIds.length ∧
        (pushBatch (extractComments rw' comments none initSt)).saved < rw'
    · rw [if_pos hc', pushBatch_sink]
      refine hpre.trans ?_
      rw [← pushBatch_appended (extractComments rw' comments none initSt)]
      exact contLoop_appends rw' env _ 0 _
    · rw [if_neg hc', pushBatch_sink]
      exact hpre

/-! Claim theorems. -/

/-- C10: the stop condition of the walk and of the continuation loop
compares the cap against the saved counter (records already flushed), and
records are flushed in groups of 20, so for every run with cap rw the
number of records appended to the dataset sink is at most rw + 19. -/
theorem C10_overshoot_at_most_19 (rw : Nat) (comments : List RNode)
    (env : Nat → Except Unit (List Thing)) :
    (runMain rw comments env).sink.length ≤ rw + 19 :=
  runMain_sink_length_le rw comments env

/-- Input tree used to refute the exact-cap claim: two top-level comments
with cap 1. -/
def twoComments : List RNode :=
  [.t1 "a" "u1" "hello" 1 0 "/p1" none, .t1 "b" "u2" "world" 2 0 "/p2" none]

/-- C1 counterexample: with cap 1 and a tree of two comments the run pushes
2 records to the sink, exceeding the requested cap.  The stop condition
only sees records already flushed, and the batch is flushed after the walk,
so the cap does not bound the sink length. -/
theorem C1_counterexample :
    ¬ ((runMain 1 twoComments (fun _ => Except.error ())).sink.length ≤ 1) := by
  have h : (runMain 1 twoComments (fun _ => Except.error ())).sink.length = 2 := by
    simp [runMain, extractComments, twoComments, pushComment, pushBatch, initSt]
  omega

/-- C1 (amended): the number of records appended to the sink never exceeds
the requested cap by more than 19 (the flush granularity), and capping
truncates the output without reordering it: the sink of a run under a
smaller cap is a prefix of the sink of the run under any larger cap with
the same tree and continuation responses. -/
theorem C1_cap_bound_and_order (rw rw' : Nat) (comments : List RNode)
    (env : Nat → Except Unit (List Thing)) (hrw : rw ≤ rw') :
    (runMain rw comments env).sink.length ≤ rw + 19 ∧
      (runMain rw comments env).sink <+: (runMain rw' comments env).sink :=
  ⟨runMain_sink_length_le rw comments env, runMain_sink_mono hrw comments env⟩

theorem C1_cap_bound_and_order_witness :
    1 ≤ 2 ∧
      ((runMain 1 [] (fun _ => Except.error ())).sink.length ≤ 1 + 19 ∧
        (runMain 1 [] (fun _ => Except.error ())).sink <+:
          (runMain 2 [] (fun _ => Except.error ())).sink) :=
  ⟨by omega, C1_cap_bound_and_order 1 2 [] (fun _ => Except.error ()) (by omega)⟩

/-- The concrete tree of C8: a top-level comment "a", a placeholder with
children x and y, and a top-level comment "b" with one nested reply "c". -/
def c8nodes : List RNode :=
  [ .t1 "a" "" "" 0 0 "" none,
    .more ["x", "y"],
    .t1 "b" "" "" 0 0 "" (some [.t1 "c" "" "" 0 0 "" none]) ]

/-- C8: on the concrete tree with cap 10 the flattener emits records in
order a (parent null), b (parent null), c (parent "b"), and collects the
placeholder ids x, y in that order. -/
theorem C8_concrete_tree :
    (appended (extractComments 10 c8nodes none initSt)).map
        (fun r => (r.id, r.parent_id)) =
      [("a", none), ("b", none), ("c", some "b")] ∧
    (extractComments 10 c8nodes none initSt).moreIds = ["x", "y"] := by
  constructor
  · simp [extractComments, c8nodes, pushComment, pushBatch, appended, initSt]
  · simp [extractComments, c8nodes, pushComment, pushBatch, initSt]

/-! Parent linkage: the spec predicate that every record with a non-null
parent_id refers to the id of a record appended strictly earlier. -/

/-- The ids of a record list, in order. -/
def recIds (l : List Flat) : List String := l.map Flat.id

/-- One record is acceptable given the ids seen so far: a null parent_id
always is, a non-null one must be among the seen ids. -/
def pOK (r : Flat) (seen : List String) : Bool :=
  match r.parent_id with
  | none => true
  | some p => decide (p ∈ seen)

/-- Check a record list against an initial set of seen ids, extending the
seen ids with each record passed. -/
def peFrom (seen : List String) : List Flat → Bool
  | [] => true
  | r :: rest => pOK r seen && peFrom (seen ++ [r.id]) rest

/-- The spec predicate: every record with a non-null parent_id matches the
id of some record strictly earlier in the list. -/
def parentsEarlier (l : List Flat) : Bool := peFrom [] l

lemma peFrom_append (l1 l2 : List Flat) : ∀ seen : List String,
    peFrom seen (l1 ++ l2) = (peFrom seen l1 && peFrom (seen ++ recIds l1) l2) := by
  induction l1 with
  | nil => intro seen; simp [peFrom, recIds]
  | cons r l1 ih =>
    intro seen
    show peFrom seen (r :: (l1 ++ l2)) = _
    rw [peFrom, ih, peFrom, Bool.and_assoc]
    have hseen : (seen ++ [r.id]) ++ recIds l1 = seen ++ recIds (r :: l1) := by
      simp [recIds]
    rw [hseen]

lemma recIds_mono {l l' : List Flat} (h : l <+: l') :
    recIds l ⊆ recIds l' := by
  intro p hp
  simp only [recIds, List.mem_map] at hp ⊢
  obtain ⟨r, hr, he⟩ := hp
  exact ⟨r, h.subset hr, he⟩

lemma peFrom_push {s : St} {pid : Option String} (fc : Flat)
    (hfc : fc.parent_id = pid)
    (h : peFrom [] (appended s) = true)
    (hp : ∀ p, pid = some p → p ∈ recIds (appended s)) :
    peFrom [] (appended (pushComment fc s)) = true := by
  rw [pushComment_appended, peFrom_append]
  simp only [h, Bool.true_and, peFrom, pOK, hfc]
  cases pid with
  | none => simp
  | some p => simp [hp p rfl]

lemma extract_parents (rw : Nat) (nodes : List RNode) (pid : Option String)
    (s : St) :
    peFrom [] (appended s) = true →
    (∀ p, pid = some p → p ∈ recIds (appended s)) →
    peFrom [] (appended (extractComments rw nodes pid s)) = true := by
  induction nodes, pid, s using extractComments.induct rw with
  | case1 pid s =>
    intro h hp
    rwa [extract_nil]
  | case2 _ _ _ _ _ _ _ _ s hge =>
    intro h hp
    rwa [extract_stop _ _ hge]
  | case3 id a b sc cr pl rest pid s hge ih =>
    intro h hp
    rw [extract_t1_none_step (by omega)]
    refine ih (peFrom_push _ rfl h hp) ?_
    intro p hp2
    have hmem := hp p hp2
    rw [pushComment_appended]
    refine recIds_mono (List.prefix_append _ _) hmem
  | case4 _ _ _ _ _ _ _ _ _ s hge =>
    intro h hp
    rwa [extract_stop _ _ hge]
  | case5 id a b sc cr pl rs rest pid s hge ih1 ih2 =>
    intro h hp
    rw [extract_t1_some_step (by omega)]
    have hpush := peFrom_push (s := s)
      (⟨id, a, b, sc, cr, pid, pl⟩ : Flat) rfl h hp
    have hidmem : id ∈ recIds (appended (pushComment ⟨id, a, b, sc, cr, pid, pl⟩ s)) := by
      rw [pushComment_appended]
      simp [recIds]
    have hinner := ih1 hpush (by
      intro p hp2
      injection hp2 with hp3
      rw [← hp3]
      exact hidmem)
    refine ih2 hinner ?_
    intro p hp2
    have hmem := hp p hp2
    refine recIds_mono (extract_appends rw rs (some id) _) ?_
    rw [pushComment_appended]
    exact recIds_mono (List.prefix_append _ _) hmem
  | case6 _ _ _ s hge =>
    intro h hp
    rwa [extract_stop _ _ hge]
  | case7 children rest pid s hge ih =>
    intro h hp
    have hlt : s.saved < rw := by omega
    rw [extract_more_step hlt]
    rw [dif_pos hlt] at ih
    exact ih h hp
  | case8 _ _ _ s hge =>
    intro h hp
    rwa [extract_stop _ _ hge]
  | case9 kind rest pid s hge ih =>
    intro h hp
    rw [extract_other_step (by omega)]
    exact ih h hp

/-- C2 (amended): every record flushed from the primary tree walk with a
non-null parent_id carries the id of a record appended strictly earlier
in the output sequence.  (Records of continuation batches are exempt:
their parent_id is copied verbatim from the response and is not checked
against earlier output.) -/
theorem C2_tree_parents_earlier (rw : Nat) (comments : List RNode) :
    parentsEarlier ((pushBatch (extractComments rw comments none initSt)).sink) = true := by
  rw [parentsEarlier, pushBatch_sink]
  refine extract_parents rw comments none initSt rfl ?_
  intro p hp
  cases hp

/-- Tree and continuation response used to refute the global parent-linkage
claim: the primary tree has one comment and one placeholder; the
continuation batch returns a comment whose parent_id "zzz" matches no
record emitted before it. -/
def cexTree : List RNode := [.t1 "a" "" "" 0 0 "" none, .more ["x"]]

/-- Continuation environment for the C2 counterexample. -/
def cexEnv : Nat → Except Unit (List Thing) :=
  fun _ => .ok [.t1c "q" "" "" 0 0 (some "zzz") ""]

/-- C2 counterexample: in a run whose continuation batch returns a comment
with parent_id "zzz", the output sequence is a(null), q(parent "zzz"), and
"zzz" is not the id of any earlier record: the claim fails for records
produced from continuation-batch responses. -/
theorem C2_counterexample :
    (runMain 25 cexTree cexEnv).sink.map (fun r => (r.id, r.parent_id)) =
      [("a", none), ("q", some "zzz")] ∧
    parentsEarlier ((runMain 25 cexTree cexEnv).sink) = false := by
  constructor
  · simp [runMain, extractComments, cexTree, cexEnv, contLoop, processThings,
      pushComment, pushBatch, initSt]
  · simp [runMain, extractComments, cexTree, cexEnv, contLoop, processThings,
      pushComment, pushBatch, initSt, parentsEarlier, peFrom, pOK]

/-! The flattener as a function of its input and of the orchestration
counters.  emittedBy and collectedBy are the records and placeholder ids
appended by one call of the walk (its output as the spec describes it). -/

/-- The records appended (to batch or sink) by one call of the walk. -/
def emittedBy (rw : Nat) (nodes : List RNode) (pid : Option String) (s : St) :
    List Flat :=
  (appended (extractComments rw nodes pid s)).drop (appended s).length

/-- The placeholder ids collected by one call of the walk. -/
def collectedBy (rw : Nat) (nodes : List RNode) (pid : Option String) (s : St) :
    List String :=
  ((extractComments rw nodes pid s).moreIds).drop s.moreIds.length

lemma pushComment_lockstep (fc : Flat) {s t : St} (h1 : s.saved = t.saved)
    (h2 : s.batch.length = t.batch.length) :
    (pushComment fc s).saved = (pushComment fc t).saved ∧
      (pushComment fc s).batch.length = (pushComment fc t).batch.length := by
  rw [pushComment_saved, pushComment_saved, pushComment_batch_length,
    pushComment_batch_length, h1, h2]
  exact ⟨rfl, rfl⟩

lemma extract_delta {rw : Nat} (nodes : List RNode) (pid : Option String)
    (s : St) : ∀ t : St, s.saved = t.saved → s.batch.length = t.batch.length →
    ∃ d m,
      appended (extractComments rw nodes pid s) = appended s ++ d ∧
      appended (extractComments rw nodes pid t) = appended t ++ d ∧
      (extractComments rw nodes pid s).moreIds = s.moreIds ++ m ∧
      (extractComments rw nodes pid t).moreIds = t.moreIds ++ m ∧
      (extractComments rw nodes pid s).saved = (extractComments rw nodes pid t).saved ∧
      (extractComments rw nodes pid s).batch.length =
        (extractComments rw nodes pid t).batch.length := by
  induction nodes, pid, s using extractComments.induct rw with
  | case1 pid s =>
    intro t h1 h2
    refine ⟨[], [], ?_⟩
    rw [extract_nil, extract_nil]
    simp [h1, h2]
  | case2 id a b sc cr pl rest pid s hge =>
    intro t h1 h2
    refine ⟨[], [], ?_⟩
    rw [extract_stop _ _ hge, extract_stop _ _ (by omega)]
    simp [h1, h2]
  | case3 id a b sc cr pl rest pid s hge ih =>
    intro t h1 h2
    have hlt : s.saved < rw := by omega
    obtain ⟨hl1, hl2⟩ := pushComment_lockstep (⟨id, a, b, sc, cr, pid, pl⟩ : Flat) h1 h2
    obtain ⟨d, m, e1, e2, e3, e4, e5, e6⟩ := ih _ hl1 hl2
    rw [extract_t1_none_step hlt, extract_t1_none_step (by omega : t.saved < rw)]
    refine ⟨[(⟨id, a, b, sc, cr, pid, pl⟩ : Flat)] ++ d, m, ?_, ?_, ?_, ?_, e5, e6⟩
    · rw [e1, pushComment_appended, List.append_assoc]
    · rw [e2, pushComment_appended, List.append_assoc]
    · rw [e3, pushComment_moreIds]
    · rw [e4, pushComment_moreIds]
  | case4 id a b sc cr pl rs rest pid s hge =>
    intro t h1 h2
    refine ⟨[], [], ?_⟩
    rw [extract_stop _ _ hge, extract_stop _ _ (by omega)]
    simp [h1, h2]
  | case5 id a b sc cr pl rs rest pid s hge ih1 ih2 =>
    intro t h1 h2
    have hlt : s.saved < rw := by omega
    obtain ⟨hl1, hl2⟩ := pushComment_lockstep (⟨id, a, b, sc, cr, pid, pl⟩ : Flat) h1 h2
    obtain ⟨d1, m1, f1, f2, f3, f4, f5, f6⟩ := ih1 _ hl1 hl2
    obtain ⟨d2, m2, g1, g2, g3, g4, g5, g6⟩ := ih2 _ f5 f6
    rw [extract_t1_some_step hlt, extract_t1_some_step (by omega : t.saved < rw)]
    refine ⟨[(⟨id, a, b, sc, cr, pid, pl⟩ : Flat)] ++ d1 ++ d2, m1 ++ m2,
      ?_, ?_, ?_, ?_, g5, g6⟩
    · rw [g1, f1, pushComment_appended]
      simp [List.append_assoc]
    · rw [g2, f2, pushComment_appended]
      simp [List.append_assoc]
    · rw [g3, f3, pushComment_moreIds, List.append_assoc]
    · rw [g4, f4, pushComment_moreIds, List.append_assoc]
  | case6 children rest pid s hge =>
    intro t h1 h2
    refine ⟨[], [], ?_⟩
    rw [extract_stop _ _ hge, extract_stop _ _ (by omega)]
    simp [h1, h2]
  | case7 children rest pid s hge ih =>
    intro t h1 h2
    have hlt : s.saved < rw := by omega
    rw [extract_more_step hlt, extract_more_step (by omega : t.saved < rw)]
    rw [dif_pos hlt] at ih
    obtain ⟨d, m, e1, e2, e3, e4, e5, e6⟩ :=
      ih ({ t with moreIds := t.moreIds ++ children }) h1 h2
    refine ⟨d, children ++ m, ?_, ?_, ?_, ?_, e5, e6⟩
    · exact e1
    · exact e2
    · rw [e3]
      simp [List.append_assoc]
    · rw [e4]
      simp [List.append_assoc]
  | case8 kind rest pid s hge =>
    intro t h1 h2
    refine ⟨[], [], ?_⟩
    rw [extract_stop _ _ hge, extract_stop _ _ (by omega)]
    simp [h1, h2]
  | case9 kind rest pid s hge ih =>
    intro t h1 h2
    have hlt : s.saved < rw := by omega
    rw [extract_other_step hlt, extract_other_step (by omega : t.saved < rw)]
    exact ih t h1 h2

/-- C5 (amended): the walk is not a pure function of the node sequence and
parentId alone, but it is a function of those together with the
orchestration counters: two runs on the same input from states agreeing on
the saved counter and pending-batch length emit the same record sequence
and collect the same placeholder ids, regardless of the sink contents or
any other surrounding state. -/
theorem C5_flatten_function_of_counters (rw : Nat) (nodes : List RNode)
    (pid : Option String) (s t : St) (h1 : s.saved = t.saved)
    (h2 : s.batch.length = t.batch.length) :
    emittedBy rw nodes pid s = emittedBy rw nodes pid t ∧
      collectedBy rw nodes pid s = collectedBy rw nodes pid t := by
  obtain ⟨d, m, e1, e2, e3, e4, -, -⟩ := extract_delta nodes pid s t h1 h2
  constructor
  · rw [emittedBy, emittedBy, e1, e2, List.drop_left, List.drop_left]
  · rw [collectedBy, collectedBy, e3, e4, List.drop_left, List.drop_left]

theorem C5_flatten_function_of_counters_witness :
    initSt.saved = initSt.saved ∧ initSt.batch.length = initSt.batch.length ∧
      (emittedBy 5 [] none initSt = emittedBy 5 [] none initSt ∧
        collectedBy 5 [] none initSt = collectedBy 5 [] none initSt) :=
  ⟨rfl, rfl, C5_flatten_function_of_counters 5 [] none initSt initSt rfl rfl⟩

/-- Single-comment tree for the C5 counterexample. -/
def oneComment : List RNode := [.t1 "a" "" "" 0 0 "" none]

/-- C5 counterexample: the walk is not a pure function of its input node
sequence and parentId: from the fresh state it emits the record "a", but
from a surrounding state whose saved counter has reached the cap it emits
nothing, on the same input. -/
theorem C5_counterexample :
    ¬ (emittedBy 20 oneComment none initSt =
        emittedBy 20 oneComment none { initSt with saved := 20 }) := by
  have ha : emittedBy 20 oneComment none initSt =
      [⟨"a", "", "", 0, 0, none, ""⟩] := by
    simp [emittedBy, extractComments, oneComment, pushComment, pushBatch,
      appended, initSt]
  have hb : emittedBy 20 oneComment none { initSt with saved := 20 } = [] := by
    rw [emittedBy, extract_stop _ _ (by simp [initSt])]
    simp
  intro h
  rw [ha, hb] at h
  cases h

/-! The result cap coercion (main.js lines 27-33). -/

/-- A present results_wanted value, after JavaScript unary-plus coercion:
fin n when +value is a finite number (this covers numbers, numeric
strings, booleans, and null, which coerces to 0), notFin when +value is
NaN or infinite (non-numeric strings, objects).  An absent field (the
destructuring default case) is Option.none. -/
inductive RawVal where
  | fin (n : Int)
  | notFin
  deriving Repr, DecidableEq

/-- Number.MAX_SAFE_INTEGER. -/
def maxSafeInteger : Int := 2 ^ 53 - 1

/-- Lines 29 and 33: results_wanted defaults to 20 when absent, then
RESULTS_WANTED is Math.max(1, +raw) when +raw is finite and
MAX_SAFE_INTEGER otherwise.  Fractional values are modelled as Int. -/
def RESULTS_WANTED (raw : Option RawVal) : Int :=
  match raw.getD (RawVal.fin 20) with
  | .fin n => max 1 n
  | .notFin => maxSafeInteger

/-- C3 counterexample: an absent value yields the default 20, not the
unbounded ceiling MAX_SAFE_INTEGER that the claim assigns to absent
values. -/
theorem C3_counterexample :
    RESULTS_WANTED none = 20 ∧ (20 : Int) ≠ maxSafeInteger := by
  exact ⟨rfl, by decide⟩

/-- C3 (amended): a present value coercing to a finite number n yields
max 1 n; a present value not coercing to a finite number yields
MAX_SAFE_INTEGER; an absent value yields the default 20; the effective
cap is always at least 1. -/
theorem C3_cap_coercion :
    RESULTS_WANTED none = 20 ∧
      (∀ n : Int, RESULTS_WANTED (some (.fin n)) = max 1 n) ∧
      RESULTS_WANTED (some .notFin) = maxSafeInteger ∧
      (∀ raw : Option RawVal, 1 ≤ RESULTS_WANTED raw) := by
  refine ⟨rfl, fun n => rfl, rfl, ?_⟩
  rintro (_ | r)
  · decide
  · cases r with
    | fin n => exact le_max_left 1 n
    | notFin => decide

/-! The thread endpoint URL (main.js line 39). -/

/-- Model of the JavaScript builtin startUrl.endsWith("/"): the last
character of the string is a slash. -/
def endsWithSlash (u : String) : Bool := u.data.getLast? == some ('/' : Char)

/-- Line 39: append ".json", inserting a slash when the input does not end
with one. -/
def jsonUrl (startUrl : String) : String :=
  if endsWithSlash startUrl then startUrl ++ ".json" else startUrl ++ "/.json"

/-- C9: an input ending in a slash maps to input ++ ".json", an input not
ending in a slash maps to input ++ "/.json"; the two concrete examples of
the spec evaluate accordingly. -/
theorem C9_json_url (u : String) :
    (endsWithSlash u = true → jsonUrl u = u ++ ".json") ∧
      (endsWithSlash u = false → jsonUrl u = u ++ "/.json") ∧
      jsonUrl "https://www.reddit.com/r/test/comments/abc/" =
        "https://www.reddit.com/r/test/comments/abc/.json" ∧
      jsonUrl "https://www.reddit.com/r/test/comments/abc" =
        "https://www.reddit.com/r/test/comments/abc/.json" := by
  refine ⟨?_, ?_, ?_, ?_⟩
  · intro h
    rw [jsonUrl, if_pos h]
  · intro h
    rw [jsonUrl, if_neg (by simp [h])]
  · rfl
  · rfl

theorem C9_json_url_witness :
    endsWithSlash "https://a/" = true ∧
      jsonUrl "https://a/" = "https://a/" ++ ".json" :=
  ⟨by decide, (C9_json_url "https://a/").1 (by decide)⟩

/-! The fetch side: JSON values, the retry loop of lines 74-99, and the
primary path of main() up to extracting the comments listing. -/

/-- JavaScript values as seen by the script after JSON.parse; undef is the
undefined produced by a missing-property access. -/
inductive JVal where
  | jnull
  | undefined
  | num (n : Int)
  | str (s : String)
  | jbool (b : Bool)
  | arr (elems : List JVal)
  | obj (fields : List (String × JVal))

/-- Property access base.key: raises (TypeError) on null and undefined,
looks the key up on an object (undefined when missing), exposes length on
arrays and strings, and yields undefined on any other primitive. -/
def getProp : JVal → String → Except Unit JVal
  | .jnull, _ => .error ()
  | .undefined, _ => .error ()
  | .obj fs, k => .ok ((fs.lookup k).getD .undefined)
  | .arr xs, k => .ok (if k = "length" then .num xs.length else .undefined)
  | .str s, k => .ok (if k = "length" then .num s.length else .undefined)
  | _, _ => .ok .undefined

/-- Index access base[i]: raises on null and undefined, indexes an array
(undefined out of range) or the characters of a string, looks the decimal
key up on an object, and yields undefined otherwise. -/
def getIdx : JVal → Nat → Except Unit JVal
  | .jnull, _ => .error ()
  | .undefined, _ => .error ()
  | .arr xs, i => .ok (xs.getD i .undefined)
  | .str s, i => .ok (if h : i < s.data.length then
      .str (String.mk [s.data.get ⟨i, h⟩]) else .undefined)
  | .obj fs, i => .ok ((fs.lookup (toString i)).getD .undefined)
  | _, _ => .ok .undefined

/-- An HTTP response: its status code and the JSON.parse outcome of its
body text (error when the body is not valid JSON, line 109). -/
structure Resp where
  statusCode : Nat
  body : Except Unit JVal

/-- Result of the retry loop: the response when one attempt succeeded, the
last recorded error, the backoff delays waited (in ms), and the number of
attempts made. -/
structure FetchRes where
  response : Option Resp
  lastError : Option String
  delays : List Nat
  attempts : Nat

/-- Lines 74-99: try the request up to 3 times (fuel counts the attempts
left, 3 at the top call).  env gives the outcome of the k-th attempt: ok
response, or an error message when the transport fails or the HTTP client
raises on a non-2xx status.  A success breaks out of the loop; a failure
records its error and, when attempts remain, waits attempt * 2000 ms. -/
def fetchLoop (env : Nat → Except String Resp) :
    Nat → Nat → Option String → List Nat → FetchRes
  | 0, attempt, lastErr, delays => ⟨none, lastErr, delays, attempt - 1⟩
  | fuel + 1, attempt, lastErr, delays =>
    match env attempt with
    | .ok r => ⟨some r, lastErr, delays, attempt⟩
    | .error e =>
        fetchLoop env fuel (attempt + 1) (some e)
          (if 0 < fuel then delays ++ [attempt * 2000] else delays)

/-- The failure outcomes of the primary path of main(). -/
inductive MainErr where
  | missingUrl
  | exhausted (lastError : Option String)
  | badStatus (code : Nat)
  | parseError
  | typeError
  | invalidResponse
  deriving Repr, DecidableEq

/-- Lines 74-107: the retry loop, then the no-response check of line 101
(failure carrying the last cause) and the status check of line 105. -/
def primaryFetch (env : Nat → Except String Resp) : Except MainErr Resp :=
  match fetchLoop env 3 1 none [] with
  | ⟨none, lastErr, _, _⟩ => .error (.exhausted lastErr)
  | ⟨some r, _, _, _⟩ =>
    if r.statusCode = 200 then .ok r else .error (.badStatus r.statusCode)

/-- The shape check of line 112: the parsed document is an array of at
least two elements. -/
def isArrayAtLeast2 : JVal → Bool
  | .arr xs => decide (2 ≤ xs.length)
  | _ => false

/-- Map a raised property or index access onto the runtime failure. -/
def tc (x : Except Unit JVal) : Except MainErr JVal :=
  x.mapError fun _ => MainErr.typeError

/-- Lines 35-123: the primary path up to obtaining the comments listing:
require startUrl (the empty string is falsy, line 35), fetch with retries,
parse the body, interpolate data.length into a log line (line 110, a
raising access when data is null), check the array shape (line 112), and
project the post (data[0].data.children[0], then .data.name and
.data.subreddit) and the comments listing (data[1].data.children). -/
def runPrimary (startUrl : Option String) (env : Nat → Except String Resp) :
    Except MainErr JVal :=
  match startUrl with
  | none => .error .missingUrl
  | some u =>
    if u = "" then .error .missingUrl
    else
      match primaryFetch env with
      | .error e => .error e
      | .ok r =>
        match r.body with
        | .error _ => .error .parseError
        | .ok data =>
          match getProp data "length" with
          | .error _ => .error .typeError
          | .ok _ =>
            if isArrayAtLeast2 data then do
              let e0 ← tc (getIdx data 0)
              let d0 ← tc (getProp e0 "data")
              let ch ← tc (getProp d0 "children")
              let postData ← tc (getIdx ch 0)
              let pdd ← tc (getProp postData "data")
              let _postId ← tc (getProp pdd "name")
              let _sub ← tc (getProp pdd "subreddit")
              let cl ← tc (getIdx data 1)
              let cld ← tc (getProp cl "data")
              tc (getProp cld "children")
            else .error .invalidResponse

/-- C4: the primary fetch makes at most 3 attempts and retries exactly on
a raised attempt; the recorded backoff delays double (2000 ms after the
first failure, 4000 ms after the second) and never go beyond those two;
a success at attempt k stops the loop with k attempts made; after 3
failures the fetch yields a failure carrying the last cause. -/
theorem C4_retry_discipline (env : Nat → Except String Resp) :
    (fetchLoop env 3 1 none []).attempts ≤ 3 ∧
      (fetchLoop env 3 1 none []).delays <+: [2000, 4000] ∧
      (∀ r, env 1 = .ok r → fetchLoop env 3 1 none [] = ⟨some r, none, [], 1⟩) ∧
      (∀ e1 r, env 1 = .error e1 → env 2 = .ok r →
        fetchLoop env 3 1 none [] = ⟨some r, some e1, [2000], 2⟩) ∧
      (∀ e1 e2 r, env 1 = .error e1 → env 2 = .error e2 → env 3 = .ok r →
        fetchLoop env 3 1 none [] = ⟨some r, some e2, [2000, 4000], 3⟩) ∧
      (∀ e1 e2 e3, env 1 = .error e1 → env 2 = .error e2 → env 3 = .error e3 →
        fetchLoop env 3 1 none [] = ⟨none, some e3, [2000, 4000], 3⟩ ∧
          primaryFetch env = .error (.exhausted (some e3))) := by
  rcases h1 : env 1 with e1 | r1 <;> rcases h2 : env 2 with e2 | r2 <;>
    rcases h3 : env 3 with e3 | r3 <;>
    simp_all [fetchLoop, primaryFetch]

theorem C4_retry_discipline_witness :
    (fun _ => (Except.error "boom" : Except String Resp)) 1 = Except.error "boom" ∧
      (fetchLoop (fun _ => Except.error "boom") 3 1 none [] =
          ⟨none, some "boom", [2000, 4000], 3⟩ ∧
        primaryFetch (fun _ => Except.error "boom") =
          Except.error (MainErr.exhausted (some "boom"))) :=
  ⟨rfl, (C4_retry_discipline (fun _ => Except.error "boom")).2.2.2.2.2
    "boom" "boom" "boom" rfl rfl rfl⟩

/-- The parsed body used in the C7 counterexample: a well-shaped array of
two elements which are not post and comments listings. -/
def flatPair : JVal := .arr [.num 1, .num 2]

/-- Fetch environment whose first attempt returns status 200 with body
[1, 2]. -/
def envFlatPair : Nat → Except String Resp := fun _ => .ok ⟨200, .ok flatPair⟩

/-- C7 counterexample: with a present URL, a fetch that succeeds on the
first attempt with status 200 and a body that is an array of two
elements, the primary path still fails (the projection
data[0].data.children raises), so the three claimed cases are not the
only failure cases. -/
theorem C7_counterexample :
    runPrimary (some "https://www.reddit.com/r/test/comments/abc") envFlatPair =
        .error .typeError ∧
      (primaryFetch envFlatPair).isOk = true ∧
      isArrayAtLeast2 flatPair = true :=
  ⟨rfl, rfl, rfl⟩

/-- C7 (amended): a missing or empty (falsy) URL, an exhausted retry
budget, and a response that is not an array of at least two elements each
signal failure; but these cases are not exhaustive: a returned non-200
status, an unparseable body, and a failed projection of the post or
comments structure also signal failure. -/
theorem C7_failure_cases (env : Nat → Except String Resp) :
    (runPrimary none env = .error .missingUrl) ∧
      (runPrimary (some "") env = .error .missingUrl) ∧
      (∀ v e, v ≠ "" → primaryFetch env = .error e →
        runPrimary (some v) env = .error e) ∧
      (∀ v r data, v ≠ "" → primaryFetch env = .ok r → r.body = .ok data →
        isArrayAtLeast2 data = false → (runPrimary (some v) env).isOk = false) := by
  refine ⟨rfl, rfl, ?_, ?_⟩
  · intro v e hv hf
    rw [runPrimary, if_neg hv, hf]
  · intro v r data hv hf hb hshape
    rw [runPrimary, if_neg hv, hf]
    dsimp only
    rw [hb]
    dsimp only
    rcases hgp : getProp data "length" with x | x <;> dsimp only
    · rfl
    · rw [if_neg (by simp [hshape])]
      rfl

theorem C7_failure_cases_witness :
    ("u" : String) ≠ "" ∧
      primaryFetch (fun _ => Except.error "x") =
        Except.error (MainErr.exhausted (some "x")) ∧
      runPrimary (some "u") (fun _ => Except.error "x") =
        Except.error (MainErr.exhausted (some "x")) :=
  ⟨by decide, rfl,
    (C7_failure_cases (fun _ => Except.error "x")).2.2.1 "u"
      (MainErr.exhausted (some "x")) (by decide) rfl⟩

/-- C6: a failed continuation batch (fetch or parse error) leaves the
state unchanged and the loop proceeds to the next batch; and every record
flushed from the primary tree walk is still present, in place, in the
sink at the end of the run. -/
theorem C6_batch_failure_tolerated :
    (∀ (rw : Nat) (env : Nat → Except Unit (List Thing))
        (moreIds : List String) (i : Nat) (s : St),
        i < moreIds.length → s.saved < rw → env (i / 100) = Except.error () →
        contLoop rw env moreIds i s = contLoop rw env moreIds (i + 100) s) ∧
      (∀ (rw : Nat) (comments : List RNode)
          (env : Nat → Except Unit (List Thing)),
        (pushBatch (extractComments rw comments none initSt)).sink <+:
          (runMain rw comments env).sink) := by
  constructor
  · intro rw env moreIds i s hi hs henv
    rw [contLoop_step env moreIds i hi hs, henv]
  · intro rw comments env
    unfold runMain
    dsimp only
    split
    · rw [pushBatch_sink, pushBatch_sink,
        ← pushBatch_appended (extractComments rw comments none initSt)]
      exact contLoop_appends rw env _ 0 _
    · exact List.prefix_rfl

theorem C6_batch_failure_tolerated_witness :
    (0 < (["x"] : List String).length ∧ initSt.saved < 40 ∧
        (fun _ => (Except.error () : Except Unit (List Thing))) (0 / 100) =
          Except.error ()) ∧
      contLoop 40 (fun _ => Except.error ()) ["x"] 0 initSt =
        contLoop 40 (fun _ => Except.error ()) ["x"] (0 + 100) initSt :=
  ⟨⟨by decide, by decide, rfl⟩,
    C6_batch_failure_tolerated.1 40 (fun _ => Except.error ()) ["x"] 0 initSt
      (by decide) (by decide) rfl⟩

end Reddit
